import Mathlib

/-!
Shallow embedding of the TTL session store with background eviction from
`src/5-session-cleaner/main.go` (package `main`): the `SessionManager`
struct with its operations `CreateSession`, `GetSessionData`,
`UpdateSessionData`, the background reaper loop `MangeSession`, the
teardown `StopSession`, and the ID generator `MakeSessionID`.

Modelling conventions:
* Time is a `Nat` counting microseconds, so that both the reaper's
  5-second sleep and the 6-microsecond delay inside `StopSession` are
  exact.  `time.Since(t)` at instant `now` is `now - t` (Nat subtraction
  truncates at 0, matching a negative Go duration never reaching the
  `>= 5s` threshold).
* The Go map `map[string]Session` is an association list with unique
  keys; `mapLookup` / `mapInsert` / `mapDelete` mirror map read, map
  assignment (replace-or-add) and `delete`.
* The opaque payload `map[string]interface{}` is `List (String × V)`
  for a type parameter `V` (the store never inspects values).
* Methods are state transformers `SessionManager V → ... → result ×
  SessionManager V`, returning the manager state after the call; an
  early-return error path returns the state unchanged, exactly as the
  Go method leaves `m.sessions` untouched.
* `crypto/rand` is an external entropy source: the outcome of
  `io.ReadFull(rand.Reader, buf)` for the 26-byte buffer is an input
  `Except GoError (List Nat)` (bytes on success, the read error on
  failure).
* The single `sync.Mutex` makes every operation and every scan an
  atomic step; the sequential embedding interleaves those steps.
* The `done` channel is modelled twice, matching its two roles: the
  instant at which `StopSession`'s send becomes pending is a parameter
  `tStop` of the reaper-run function, and the open/closed state of the
  channel is a `ChanState` field used for the panic semantics of
  `close` / send-on-closed.
-/

namespace SessionCleaner

/-- One second in model time units (microseconds). -/
def second : Nat := 1000000

/-- Session time-to-live: `5 * time.Second` in `MangeSession`'s expiry check. -/
def TTL : Nat := 5 * second

/-- Reaper polling period: the `time.Sleep(5 * time.Second)` in `MangeSession`. -/
def scanInterval : Nat := 5 * second

/-- Delay at the top of `StopSession`: `time.Sleep(6 * time.Microsecond)`. -/
def stopDelay : Nat := 6

/-- Errors surfaced by the store: `ErrSessionNotFound`, and any error coming
out of the entropy source during ID generation. -/
inductive GoError where
  | SessionNotFound
  | RandomSourceError
deriving DecidableEq, Repr

/-- Go runtime panics relevant to `StopSession`'s channel protocol. -/
inductive GoPanic where
  | sendOnClosedChannel
  | closeOfClosedChannel
deriving DecidableEq, Repr

/-- State of the unbuffered `done` channel. -/
inductive ChanState where
  | opened
  | closed
deriving DecidableEq, Repr

variable {V : Type} {α : Type}

/-- Go map read `m[k]` on an association list. -/
def mapLookup (k : String) : List (String × α) → Option α
  | [] => none
  | (k1, v) :: rest => if k1 = k then some v else mapLookup k rest

/-- Go map assignment `m[k] = v`: replace the entry for `k`, or add it. -/
def mapInsert (k : String) (v : α) : List (String × α) → List (String × α)
  | [] => [(k, v)]
  | (k1, v1) :: rest =>
      if k1 = k then (k, v) :: rest else (k1, v1) :: mapInsert k v rest

/-- Go `delete(m, k)`: remove the entry for `k` if present. -/
def mapDelete (k : String) : List (String × α) → List (String × α)
  | [] => []
  | (k1, v) :: rest =>
      if k1 = k then mapDelete k rest else (k1, v) :: mapDelete k rest

/-- `Session` from the source: the opaque data payload and the last
update timestamp. -/
structure Session (V : Type) where
  Data : List (String × V)
  LastUpdate : Nat
deriving DecidableEq, Repr

/-- `SessionManager` from the source: the session map and the `done`
channel (the mutex is the atomicity of each step and has no data). -/
structure SessionManager (V : Type) where
  sessions : List (String × Session V)
  done : ChanState
deriving DecidableEq, Repr

/-- `NewSessionManager`: empty map, open `done` channel (the reaper
goroutine it starts is modelled by `reaperScans` / `mangeUntilStop`). -/
def NewSessionManager : SessionManager V :=
  { sessions := [], done := ChanState.opened }

/-- The standard base64 alphabet, in index order. -/
def base64Chars : List Char :=
  [ 'A','B','C','D','E','F','G','H','I','J','K','L','M','N','O','P','Q','R',
    'S','T','U','V','W','X','Y','Z','a','b','c','d','e','f','g','h','i','j',
    'k','l','m','n','o','p','q','r','s','t','u','v','w','x','y','z','0','1',
    '2','3','4','5','6','7','8','9','+','/' ]

/-- The base64 digit for a 6-bit value. -/
def b64char (n : Nat) : Char := base64Chars.getD n 'A'

/-- Standard padded base64 (`base64.StdEncoding.EncodeToString`): each
3-byte group becomes 4 digits; a trailing 1- or 2-byte group is padded
with `=` to 4 characters. Bytes are taken mod 256 by the 6-bit splits. -/
def base64StdEncode : List Nat → List Char
  | [] => []
  | [b1] =>
      [b64char (b1 / 4 % 64), b64char (b1 % 4 * 16), '=', '=']
  | [b1, b2] =>
      [b64char (b1 / 4 % 64), b64char (b1 % 4 * 16 + b2 / 16 % 16),
       b64char (b2 % 16 * 4), '=']
  | b1 :: b2 :: b3 :: rest =>
      b64char (b1 / 4 % 64) :: b64char (b1 % 4 * 16 + b2 / 16 % 16) ::
      b64char (b2 % 16 * 4 + b3 / 64 % 4) :: b64char (b3 % 64) ::
      base64StdEncode rest

/-- `MakeSessionID`: read 26 random bytes (`randRead` is the outcome of
`io.ReadFull(rand.Reader, buf)`, `len(buf) = 26`), propagate a read
error, otherwise return the standard padded base64 encoding. -/
def MakeSessionID (randRead : Except GoError (List Nat)) : Except GoError String :=
  match randRead with
  | .error e => .error e
  | .ok buf => .ok ⟨base64StdEncode buf⟩

/-- `CreateSession`: under the lock, generate an ID; on failure return
the error with the map untouched; on success insert a fresh session with
empty data and `LastUpdate = now` and return the ID. -/
def CreateSession (m : SessionManager V) (randRead : Except GoError (List Nat))
    (now : Nat) : Except GoError String × SessionManager V :=
  match MakeSessionID randRead with
  | .error e => (.error e, m)
  | .ok sessionID =>
      (.ok sessionID,
       { m with sessions := mapInsert sessionID ⟨[], now⟩ m.sessions })

/-- `GetSessionData`: under the lock, return the session's data, or
`ErrSessionNotFound` when the ID is absent; the map is never written. -/
def GetSessionData (m : SessionManager V) (sessionID : String) :
    Except GoError (List (String × V)) × SessionManager V :=
  match mapLookup sessionID m.sessions with
  | none => (.error .SessionNotFound, m)
  | some session => (.ok session.Data, m)

/-- `UpdateSessionData`: under the lock, fail with `ErrSessionNotFound`
when the ID is absent (map untouched); otherwise overwrite the session's
data with the new value and renew `LastUpdate` to `now` in one map
write. -/
def UpdateSessionData (m : SessionManager V) (sessionID : String)
    (data : List (String × V)) (now : Nat) :
    Except GoError Unit × SessionManager V :=
  match mapLookup sessionID m.sessions with
  | none => (.error .SessionNotFound, m)
  | some _ =>
      (.ok (),
       { m with sessions := mapInsert sessionID ⟨data, now⟩ m.sessions })

/-- The expiry test of one reaper scan: `time.Since(sess.LastUpdate) >=
5*time.Second` at instant `now`. -/
def expired (now lastUpdate : Nat) : Bool :=
  TTL ≤ now - lastUpdate

/-- One body of the reaper loop after the sleep, at instant `now`
(lines 119–145 of the source): if the map is empty, release the lock and
continue (no log); otherwise collect the expired IDs while enumerating,
delete them only after the enumeration, and log the batch only when it
is non-empty.  Returns the new state and the optional log record. -/
def scanOnce (now : Nat) (m : SessionManager V) :
    SessionManager V × Option (List String) :=
  if m.sessions.isEmpty then (m, none)
  else
    let deletedKeys :=
      (m.sessions.filter fun p => expired now p.2.LastUpdate).map fun p => p.1
    let remaining := deletedKeys.foldl (fun acc k => mapDelete k acc) m.sessions
    ({ m with sessions := remaining },
     if deletedKeys.isEmpty then none else some deletedKeys)

/-- The reaper run with no teardown: `MangeSession` started at time 0
performs its `k`-th scan at time `scanInterval * k` (the sleep dominates
the loop; scan duration is negligible in the reference behavior). -/
def reaperScans : Nat → SessionManager V → SessionManager V
  | 0, m => m
  | k + 1, m => (scanOnce (scanInterval * (k + 1)) (reaperScans k m)).1

/-- The store as a query at time `q` observes it: all scans at times
`scanInterval * j ≤ q` have run. -/
def storeAt (m : SessionManager V) (q : Nat) : SessionManager V :=
  reaperScans (q / scanInterval) m

/-- Outcome of running `MangeSession` until it observes the stop signal:
the final store, the loop-top time at which the loop returned, and the
times of the scans it performed. -/
structure ReaperRun (V : Type) where
  store : SessionManager V
  stopTime : Nat
  scanTimes : List Nat
deriving DecidableEq, Repr

/-- `MangeSession` with a pending teardown: at each loop top (time
`loopTime`) the `select` receives the stop signal iff the signal became
pending strictly before the loop top (`tStop < loopTime`); otherwise the
`default` branch sleeps `scanInterval` — the sleep is a plain
`time.Sleep`, never interrupted — and scans at `loopTime +
scanInterval`.  `fuel` bounds the number of iterations; any `fuel` with
`tStop < fuel * scanInterval` reaches the stop. -/
def mangeUntilStop (loopTime tStop : Nat) (m : SessionManager V) :
    Nat → ReaperRun V
  | 0 => ⟨m, loopTime, []⟩
  | fuel + 1 =>
      if tStop < loopTime then ⟨m, loopTime, []⟩
      else
        let t := loopTime + scanInterval
        let r := mangeUntilStop t tStop (scanOnce t m).1 fuel
        ⟨r.store, r.stopTime, t :: r.scanTimes⟩

/-- `StopSession`: after the 6µs delay, send `true` on `done` (received
by the reaper's `select`, which then returns), then `close(done)`.  On a
store whose `done` channel is already closed, the send panics. -/
def StopSession (m : SessionManager V) : Except GoPanic (SessionManager V) :=
  match m.done with
  | .opened => .ok { m with done := ChanState.closed }
  | .closed => .error .sendOnClosedChannel

/-- A concrete session used to instantiate the general theorems: data
`{"k": 7}`, last updated at time 3. -/
def sampleSession : Session Nat :=
  { Data := [("k", 7)], LastUpdate := 3 }

/-- A concrete one-session store used to instantiate the general
theorems. -/
def sampleStore : SessionManager Nat :=
  { sessions := [("a", sampleSession)], done := ChanState.opened }

/-- A store holding one session created at time 0 with empty data: the
"create a session, then immediately tear down" scenario. -/
def zeroStore : SessionManager Nat :=
  { sessions := [("s", { Data := [], LastUpdate := 0 })],
    done := ChanState.opened }

/-- A store is well formed when its map has no duplicate keys; every Go
map satisfies this and every operation preserves it. -/
def nodupKeys (l : List (String × α)) : Prop :=
  (l.map fun p => p.1).Nodup

instance (l : List (String × α)) : Decidable (nodupKeys l) := by
  unfold nodupKeys; infer_instance

theorem mapLookup_mapInsert_self (k : String) (v : α) (l : List (String × α)) :
    mapLookup k (mapInsert k v l) = some v := by
  induction l with
  | nil => simp [mapInsert, mapLookup]
  | cons hd rest ih =>
      obtain ⟨k1, v1⟩ := hd
      by_cases h : k1 = k
      · simp [mapInsert, h, mapLookup]
      · simp [mapInsert, h, mapLookup, ih]

theorem mapLookup_mapInsert_ne (k q : String) (v : α) (l : List (String × α))
    (h : q ≠ k) : mapLookup q (mapInsert k v l) = mapLookup q l := by
  induction l with
  | nil => simp [mapInsert, mapLookup, Ne.symm h]
  | cons hd rest ih =>
      obtain ⟨k1, v1⟩ := hd
      by_cases h1 : k1 = k
      · subst h1
        simp [mapInsert, mapLookup, Ne.symm h]
      · simp [mapInsert, h1, mapLookup, ih]

theorem mapLookup_mapDelete_self (k : String) (l : List (String × α)) :
    mapLookup k (mapDelete k l) = none := by
  induction l with
  | nil => simp [mapDelete, mapLookup]
  | cons hd rest ih =>
      obtain ⟨k1, v1⟩ := hd
      by_cases h : k1 = k
      · simp [mapDelete, h, ih]
      · simp [mapDelete, h, mapLookup, ih]

theorem mapLookup_mapDelete_ne (k q : String) (l : List (String × α))
    (h : q ≠ k) : mapLookup q (mapDelete k l) = mapLookup q l := by
  induction l with
  | nil => simp [mapDelete]
  | cons hd rest ih =>
      obtain ⟨k1, v1⟩ := hd
      by_cases h1 : k1 = k
      · subst h1
        simp [mapDelete, mapLookup, Ne.symm h, ih]
      · simp [mapDelete, h1, mapLookup, ih]

theorem length_mapInsert_of_absent (k : String) (v : α) (l : List (String × α))
    (h : mapLookup k l = none) : (mapInsert k v l).length = l.length + 1 := by
  induction l with
  | nil => simp [mapInsert]
  | cons hd rest ih =>
      obtain ⟨k1, v1⟩ := hd
      by_cases h1 : k1 = k
      · simp [mapLookup, h1] at h
      · simp [mapLookup, h1] at h
        simp [mapInsert, h1, ih h]

theorem mapLookup_foldl_mapDelete (keys : List String) (l : List (String × α))
    (q : String) :
    mapLookup q (keys.foldl (fun acc k => mapDelete k acc) l) =
      if q ∈ keys then none else mapLookup q l := by
  induction keys generalizing l with
  | nil => simp
  | cons k ks ih =>
      simp only [List.foldl_cons, ih, List.mem_cons]
      by_cases hq : q = k
      · subst hq
        by_cases hks : q ∈ ks <;> simp [hks, mapLookup_mapDelete_self]
      · by_cases hks : q ∈ ks <;>
          simp [hks, hq, mapLookup_mapDelete_ne k q l hq]

theorem mapDelete_keys_sublist (k : String) (l : List (String × α)) :
    ((mapDelete k l).map fun p => p.1).Sublist (l.map fun p => p.1) := by
  induction l with
  | nil => simp [mapDelete]
  | cons hd rest ih =>
      obtain ⟨k1, v1⟩ := hd
      by_cases h : k1 = k
      · simp only [mapDelete, if_pos h, List.map_cons]
        exact ih.cons k1
      · simp only [mapDelete, if_neg h, List.map_cons]
        exact ih.cons₂ k1

theorem foldl_mapDelete_keys_sublist (keys : List String) (l : List (String × α)) :
    ((keys.foldl (fun acc k => mapDelete k acc) l).map fun p => p.1).Sublist
      (l.map fun p => p.1) := by
  induction keys generalizing l with
  | nil => simp
  | cons k ks ih =>
      simp only [List.foldl_cons]
      exact (ih (mapDelete k l)).trans (mapDelete_keys_sublist k l)

theorem mem_of_mapLookup_eq_some (l : List (String × α)) (q : String) (v : α)
    (h : mapLookup q l = some v) : (q, v) ∈ l := by
  induction l with
  | nil => simp [mapLookup] at h
  | cons hd rest ih =>
      obtain ⟨k1, v1⟩ := hd
      by_cases h1 : k1 = q
      · subst h1
        simp [mapLookup] at h
        simp [h]
      · simp [mapLookup, h1] at h
        exact List.mem_cons_of_mem _ (ih h)

theorem mapLookup_eq_some_of_mem (l : List (String × α)) (q : String) (v : α)
    (hnd : nodupKeys l) (hmem : (q, v) ∈ l) : mapLookup q l = some v := by
  induction l with
  | nil => simp at hmem
  | cons hd rest ih =>
      obtain ⟨k1, v1⟩ := hd
      simp only [nodupKeys, List.map_cons, List.nodup_cons] at hnd
      rcases List.mem_cons.mp hmem with heq | hmem2
      · cases heq
        simp [mapLookup]
      · have hne : k1 ≠ q := by
          rintro rfl
          exact hnd.1 (List.mem_map.mpr ⟨(k1, v), hmem2, rfl⟩)
        simp [mapLookup, hne, ih hnd.2 hmem2]

theorem mapLookup_eq_some_iff_mem (l : List (String × α)) (q : String) (v : α)
    (hnd : nodupKeys l) : mapLookup q l = some v ↔ (q, v) ∈ l :=
  ⟨mem_of_mapLookup_eq_some l q v, mapLookup_eq_some_of_mem l q v hnd⟩

theorem expired_eq_true_iff (now t : Nat) :
    expired now t = true ↔ TTL ≤ now - t := by
  simp [expired]

/-- The session map after one scan, as a fold of deletions over the
collected batch. -/
theorem scanOnce_fst_sessions (now : Nat) (m : SessionManager V) :
    (scanOnce now m).1.sessions =
      ((m.sessions.filter fun p => expired now p.2.LastUpdate).map
          fun p => p.1).foldl (fun acc k => mapDelete k acc) m.sessions := by
  unfold scanOnce
  cases hs : m.sessions with
  | nil => simp [hs]
  | cons hd tl => simp [hs]

theorem scanOnce_lookup_none (now : Nat) (m : SessionManager V) (q : String)
    (h : mapLookup q m.sessions = none) :
    mapLookup q (scanOnce now m).1.sessions = none := by
  rw [scanOnce_fst_sessions, mapLookup_foldl_mapDelete]
  split <;> simp [h]

theorem scanOnce_lookup_some (now : Nat) (m : SessionManager V) (q : String)
    (s : Session V) (hnd : nodupKeys m.sessions)
    (h : mapLookup q m.sessions = some s) :
    mapLookup q (scanOnce now m).1.sessions =
      if expired now s.LastUpdate then none else some s := by
  rw [scanOnce_fst_sessions, mapLookup_foldl_mapDelete]
  have hmem : (q ∈ (m.sessions.filter fun p => expired now p.2.LastUpdate).map
      fun p => p.1) ↔ expired now s.LastUpdate = true := by
    simp only [List.mem_map, List.mem_filter]
    constructor
    · rintro ⟨⟨k, v⟩, ⟨hv, hexp⟩, hk⟩
      simp only at hk
      subst hk
      have hl := mapLookup_eq_some_of_mem m.sessions k v hnd hv
      rw [h] at hl
      injection hl with hl
      subst hl
      exact hexp
    · intro hexp
      exact ⟨(q, s), ⟨mem_of_mapLookup_eq_some m.sessions q s h, hexp⟩, rfl⟩
  by_cases hexp : expired now s.LastUpdate = true
  · simp [hmem, hexp]
  · simp [hmem, hexp, h]

theorem scanOnce_nodupKeys (now : Nat) (m : SessionManager V)
    (hnd : nodupKeys m.sessions) : nodupKeys (scanOnce now m).1.sessions := by
  rw [nodupKeys, scanOnce_fst_sessions]
  exact hnd.sublist (foldl_mapDelete_keys_sublist _ m.sessions)

theorem reaperScans_nodupKeys (m : SessionManager V) (k : Nat)
    (hnd : nodupKeys m.sessions) : nodupKeys (reaperScans k m).sessions := by
  induction k with
  | zero => exact hnd
  | succ k ih => exact scanOnce_nodupKeys _ _ ih

theorem reaperScans_lookup_none (m : SessionManager V) (q : String) (k : Nat)
    (h : mapLookup q m.sessions = none) :
    mapLookup q (reaperScans k m).sessions = none := by
  induction k with
  | zero => exact h
  | succ k ih => exact scanOnce_lookup_none _ _ _ ih

/-- A session never comes back: scans only delete, so once the lookup is
`none` after `j` scans it stays `none` after any `k ≥ j` scans. -/
theorem reaperScans_none_mono (m : SessionManager V) (q : String) (j k : Nat)
    (hjk : j ≤ k) (h : mapLookup q (reaperScans j m).sessions = none) :
    mapLookup q (reaperScans k m).sessions = none := by
  induction k, hjk using Nat.le_induction with
  | base => exact h
  | succ k hjk ih => exact scanOnce_lookup_none _ _ _ ih

/-- Scans never change a surviving entry: the lookup after `k` scans is
either still the original session or gone. -/
theorem reaperScans_lookup_some_or_none (m : SessionManager V) (q : String)
    (s : Session V) (hnd : nodupKeys m.sessions)
    (h : mapLookup q m.sessions = some s) (k : Nat) :
    mapLookup q (reaperScans k m).sessions = some s ∨
      mapLookup q (reaperScans k m).sessions = none := by
  induction k with
  | zero => exact Or.inl h
  | succ k ih =>
      rcases ih with hsome | hnone
      · rw [show reaperScans (k + 1) m =
            (scanOnce (scanInterval * (k + 1)) (reaperScans k m)).1 from rfl]
        rw [scanOnce_lookup_some _ _ _ s (reaperScans_nodupKeys m k hnd) hsome]
        by_cases hexp : expired (scanInterval * (k + 1)) s.LastUpdate = true
        · exact Or.inr (by simp [hexp])
        · exact Or.inl (by simp [hexp])
      · exact Or.inr (scanOnce_lookup_none _ _ _ hnone)

/-- While every scan so far happened strictly before expiry, the session
survives all of them unchanged. -/
theorem reaperScans_lookup_some_of_fresh (m : SessionManager V) (q : String)
    (s : Session V) (k : Nat) (hnd : nodupKeys m.sessions)
    (h : mapLookup q m.sessions = some s)
    (hfresh : ∀ j, 1 ≤ j → j ≤ k →
      ¬(expired (scanInterval * j) s.LastUpdate = true)) :
    mapLookup q (reaperScans k m).sessions = some s := by
  induction k with
  | zero => exact h
  | succ k ih =>
      have hprev := ih (fun j h1 h2 => hfresh j h1 (h2.trans (Nat.le_succ k)))
      rw [show reaperScans (k + 1) m =
          (scanOnce (scanInterval * (k + 1)) (reaperScans k m)).1 from rfl]
      rw [scanOnce_lookup_some _ _ _ s (reaperScans_nodupKeys m k hnd) hprev]
      simp [hfresh (k + 1) (Nat.le_add_left 1 k) (Nat.le_refl _)]

/-- Once some scan at or after expiry has run, the session is gone. -/
theorem reaperScans_lookup_none_of_expired_scan (m : SessionManager V)
    (q : String) (s : Session V) (j : Nat) (hnd : nodupKeys m.sessions)
    (h : mapLookup q m.sessions = some s) (hj : 1 ≤ j)
    (hexp : expired (scanInterval * j) s.LastUpdate = true) :
    mapLookup q (reaperScans j m).sessions = none := by
  obtain ⟨j0, rfl⟩ : ∃ j0, j = j0 + 1 :=
    ⟨j - 1, by omega⟩
  rcases reaperScans_lookup_some_or_none m q s hnd h j0 with hsome | hnone
  · rw [show reaperScans (j0 + 1) m =
        (scanOnce (scanInterval * (j0 + 1)) (reaperScans j0 m)).1 from rfl]
    rw [scanOnce_lookup_some _ _ _ s (reaperScans_nodupKeys m j0 hnd) hsome]
    simp [hexp]
  · exact scanOnce_lookup_none _ _ _ hnone

theorem GetSessionData_eq_error_iff (m : SessionManager V) (q : String) :
    (GetSessionData m q).1 = .error .SessionNotFound ↔
      mapLookup q m.sessions = none := by
  unfold GetSessionData
  cases h : mapLookup q m.sessions <;> simp

/-- C1: a session last updated at time `T` is present (its data readable)
at every query strictly before `T + TTL`, absent (`SessionNotFound`) at
every query at time `≥ T + TTL + scanInterval`, and the transition is
monotonic: once a query sees it absent, every later query does too.  The
store is observed through `storeAt`, which runs the reaper's scans at
times `scanInterval * j` up to the query time, as `MangeSession` does
with negligible scan duration. -/
theorem C1_eviction_timing (m : SessionManager V) (q : String) (s : Session V)
    (hnd : nodupKeys m.sessions)
    (hs : mapLookup q m.sessions = some s) :
    (∀ t, t < s.LastUpdate + TTL →
        (GetSessionData (storeAt m t) q).1 = .ok s.Data) ∧
    (∀ t, s.LastUpdate + TTL + scanInterval ≤ t →
        (GetSessionData (storeAt m t) q).1 = .error .SessionNotFound) ∧
    (∀ t1 t2, t1 ≤ t2 →
        (GetSessionData (storeAt m t1) q).1 = .error .SessionNotFound →
        (GetSessionData (storeAt m t2) q).1 = .error .SessionNotFound) := by
  refine ⟨?_, ?_, ?_⟩
  · intro t ht
    have hlook : mapLookup q (storeAt m t).sessions = some s := by
      apply reaperScans_lookup_some_of_fresh m q s (t / scanInterval) hnd hs
      intro j h1 h2
      rw [expired_eq_true_iff]
      have hle : scanInterval * j ≤ t := by
        calc scanInterval * j = j * scanInterval := Nat.mul_comm _ _
          _ ≤ t / scanInterval * scanInterval := Nat.mul_le_mul_right _ h2
          _ ≤ t := Nat.div_mul_le_self t _
      generalize scanInterval * j = x at hle ⊢
      simp only [TTL, second] at ht ⊢
      omega
    simp [GetSessionData, hlook]
  · intro t ht
    have key : mapLookup q (storeAt m t).sessions = none := by
      have hj1 : 1 ≤ s.LastUpdate / scanInterval + 2 := Nat.le_add_left 1 _
      have hexp : expired (scanInterval * (s.LastUpdate / scanInterval + 2))
          s.LastUpdate = true := by
        rw [expired_eq_true_iff]
        simp only [TTL, scanInterval, second]
        omega
      have hjle : s.LastUpdate / scanInterval + 2 ≤ t / scanInterval := by
        simp only [TTL, scanInterval, second] at ht ⊢
        omega
      exact reaperScans_none_mono m q _ _ hjle
        (reaperScans_lookup_none_of_expired_scan m q s _ hnd hs hj1 hexp)
    simp [GetSessionData, key]
  · intro t1 t2 h12 h1
    rw [GetSessionData_eq_error_iff] at h1 ⊢
    exact reaperScans_none_mono m q _ _ (Nat.div_le_div_right h12) h1

/-- Witness for C1 at the concrete store `sampleStore` (session "a" last
updated at time 3): present one microsecond before expiry, absent at
`3 + TTL + scanInterval`, and absence persists. -/
theorem C1_eviction_timing_witness :
    (GetSessionData (storeAt sampleStore 5000002) "a").1 = .ok [("k", 7)] ∧
    (GetSessionData (storeAt sampleStore 10000003) "a").1 =
      .error .SessionNotFound ∧
    (GetSessionData (storeAt sampleStore 10000004) "a").1 =
      .error .SessionNotFound := by
  have h := C1_eviction_timing sampleStore "a" sampleSession (by decide) rfl
  exact ⟨h.1 5000002 (by decide), h.2.1 10000003 (by decide),
    h.2.2 10000003 10000004 (by decide) (h.2.1 10000003 (by decide))⟩

/-- The loop exits at the first loop top strictly after the stop request,
so both the exit time and every scan time are within `scanInterval` of
the request. -/
theorem mangeUntilStop_bounds (tStop : Nat) :
    ∀ (fuel loopTime : Nat) (m : SessionManager V),
      tStop < loopTime + fuel * scanInterval →
      (mangeUntilStop loopTime tStop m fuel).stopTime ≤
          max loopTime (tStop + scanInterval) ∧
      ∀ t ∈ (mangeUntilStop loopTime tStop m fuel).scanTimes,
        t ≤ tStop + scanInterval := by
  intro fuel
  induction fuel with
  | zero =>
      intro loopTime m h
      exact ⟨Nat.le_max_left _ _, by simp [mangeUntilStop]⟩
  | succ f ih =>
      intro loopTime m h
      by_cases hstop : tStop < loopTime
      · constructor
        · simp [mangeUntilStop, hstop]
        · simp [mangeUntilStop, hstop]
      · have hl : loopTime ≤ tStop := Nat.le_of_not_lt hstop
        have h2 : tStop < (loopTime + scanInterval) + f * scanInterval := by
          rw [Nat.succ_mul] at h
          generalize f * scanInterval = F at h ⊢
          omega
        obtain ⟨ihs, iht⟩ :=
          ih (loopTime + scanInterval) (scanOnce (loopTime + scanInterval) m).1 h2
        constructor
        · simp only [mangeUntilStop, if_neg hstop]
          refine le_trans ihs (max_le ?_ (le_max_right _ _))
          exact le_trans (Nat.add_le_add_right hl _) (le_max_right _ _)
        · simp only [mangeUntilStop, if_neg hstop]
          intro t ht
          rcases List.mem_cons.mp ht with rfl | hmem
          · exact Nat.add_le_add_right hl _
          · exact iht t hmem

/-- The loop only ever deletes sessions, so an absent ID stays absent
through the rest of the run. -/
theorem mangeUntilStop_lookup_none (tStop : Nat) (q : String) :
    ∀ (fuel loopTime : Nat) (m : SessionManager V),
      mapLookup q m.sessions = none →
      mapLookup q (mangeUntilStop loopTime tStop m fuel).store.sessions =
        none := by
  intro fuel
  induction fuel with
  | zero => intro loopTime m h; simpa [mangeUntilStop] using h
  | succ f ih =>
      intro loopTime m h
      by_cases hstop : tStop < loopTime
      · simpa [mangeUntilStop, hstop] using h
      · simp only [mangeUntilStop, if_neg hstop]
        exact ih _ _ (scanOnce_lookup_none _ _ _ h)

/-- C2 counterexample: start `zeroStore` (one session created at time 0),
request teardown at `stopDelay` (6µs, the instant `StopSession`'s send
becomes pending), and run the reaper.  The in-progress sleep is not
interrupted: one eviction scan still runs at `scanInterval` — after the
teardown request — and it deletes the session, so the session is absent
once time passes TTL, contradicting the claim that it is still present
and that no scan runs after teardown. -/
theorem C2_counterexample_scan_after_teardown :
    (mangeUntilStop 0 stopDelay zeroStore 2).scanTimes = [scanInterval] ∧
    stopDelay < scanInterval ∧
    mapLookup "s" (mangeUntilStop 0 stopDelay zeroStore 2).store.sessions =
      none := by
  decide

/-- C2 (amended): invoking teardown at any time `tStop` stops the
reaper within `scanInterval` (the loop exits by `tStop + scanInterval`,
and every scan it ever performs is at a time `≤ tStop + scanInterval`),
but the in-progress sleep is NOT interruptible: the cycle in progress
still performs its scan, so a session created at time 0 and immediately
followed by teardown is evicted by that final scan (at `scanInterval ≥
TTL`) and is absent, not present, once time advances past TTL. -/
theorem C2_teardown_stops_after_final_scan (tStop fuel : Nat)
    (h : tStop < fuel * scanInterval) :
    mapLookup "s" (mangeUntilStop 0 tStop zeroStore fuel).store.sessions =
        none ∧
    (mangeUntilStop 0 tStop zeroStore fuel).stopTime ≤ tStop + scanInterval ∧
    ∀ t ∈ (mangeUntilStop 0 tStop zeroStore fuel).scanTimes,
      t ≤ tStop + scanInterval := by
  obtain ⟨f, rfl⟩ : ∃ f, fuel = f + 1 := by
    cases fuel with
    | zero => simp at h
    | succ f => exact ⟨f, rfl⟩
  have hb := mangeUntilStop_bounds tStop (f + 1) 0 zeroStore (by simpa using h)
  refine ⟨?_, ?_, hb.2⟩
  · simp only [mangeUntilStop, if_neg (Nat.not_lt_zero tStop)]
    apply mangeUntilStop_lookup_none
    decide
  · simpa using hb.1

/-- Witness for the amended C2 at `tStop = 6`, `fuel = 1`. -/
theorem C2_teardown_stops_after_final_scan_witness :
    mapLookup "s" (mangeUntilStop 0 6 zeroStore 1).store.sessions = none ∧
    (mangeUntilStop 0 6 zeroStore 1).stopTime ≤ 6 + scanInterval ∧
    ∀ t ∈ (mangeUntilStop 0 6 zeroStore 1).scanTimes, t ≤ 6 + scanInterval :=
  C2_teardown_stops_after_final_scan 6 1 (by decide)

/-- C9 counterexample: calling `StopSession` twice in a row panics: the
first call sends the stop signal and closes `done`; the second call's
send `m.done <- true` is a send on a closed channel. -/
theorem C9_counterexample_double_stop_panics :
    (StopSession zeroStore).bind StopSession =
      Except.error GoPanic.sendOnClosedChannel := rfl

/-- C9 (amended): a second call to the teardown operation after a
completed first call does not deadlock — it fails fast — but it panics
with send-on-closed-channel, because `StopSession` closed `done` at the
end of the first call and its send does not guard against that. -/
theorem C9_second_stop_panics (m m2 : SessionManager V)
    (h : StopSession m = .ok m2) :
    StopSession m2 = .error GoPanic.sendOnClosedChannel := by
  cases hdone : m.done with
  | opened =>
      rw [StopSession, hdone] at h
      injection h with h
      subst h
      rw [StopSession]
  | closed =>
      rw [StopSession, hdone] at h
      cases h

/-- Witness for the amended C9: the concrete double call on `zeroStore`. -/
theorem C9_second_stop_panics_witness :
    StopSession { zeroStore with done := ChanState.closed } =
      Except.error GoPanic.sendOnClosedChannel :=
  C9_second_stop_panics zeroStore _ rfl

/-- An ID is in a scan's removal batch iff the store maps it to a
session that is expired at the scan instant. -/
theorem mem_scan_batch_iff (now : Nat) (m : SessionManager V) (q : String)
    (hnd : nodupKeys m.sessions) :
    (q ∈ (m.sessions.filter fun p => expired now p.2.LastUpdate).map
        fun p => p.1) ↔
      ∃ s, mapLookup q m.sessions = some s ∧
        expired now s.LastUpdate = true := by
  simp only [List.mem_map, List.mem_filter]
  constructor
  · rintro ⟨⟨k, v⟩, ⟨hv, hexp⟩, hk⟩
    simp only at hk
    subst hk
    exact ⟨v, mapLookup_eq_some_of_mem m.sessions k v hnd hv, hexp⟩
  · rintro ⟨s, hlook, hexp⟩
    exact ⟨(q, s), ⟨mem_of_mapLookup_eq_some m.sessions q s hlook, hexp⟩, rfl⟩

/-- C3: for a present ID, `UpdateSessionData` succeeds, the entry
becomes exactly the new data paired with `LastUpdate = now` in one map
write (whole-value replacement, no partial merge, no split state), and
under a monotonic clock (`now` at least the previous stamp) the stored
`LastUpdate` never decreases; for an absent ID it fails with
`SessionNotFound` and leaves the store unchanged. -/
theorem C3_update_semantics (m : SessionManager V) (q : String)
    (d : List (String × V)) (now : Nat) :
    (∀ s, mapLookup q m.sessions = some s →
        (UpdateSessionData m q d now).1 = .ok () ∧
        mapLookup q (UpdateSessionData m q d now).2.sessions =
          some { Data := d, LastUpdate := now } ∧
        (s.LastUpdate ≤ now → ∀ s2,
            mapLookup q (UpdateSessionData m q d now).2.sessions = some s2 →
            s.LastUpdate ≤ s2.LastUpdate)) ∧
    (mapLookup q m.sessions = none →
        UpdateSessionData m q d now = (.error .SessionNotFound, m)) := by
  constructor
  · intro s hs
    have h2 : mapLookup q (UpdateSessionData m q d now).2.sessions =
        some { Data := d, LastUpdate := now } := by
      simp [UpdateSessionData, hs, mapLookup_mapInsert_self]
    refine ⟨by simp [UpdateSessionData, hs], h2, ?_⟩
    intro hmono s2 hs2
    rw [h2] at hs2
    injection hs2 with hs2
    subst hs2
    exact hmono
  · intro h
    simp [UpdateSessionData, h]

/-- Witness for C3: updating the present ID "a" of `sampleStore` at time
10, and updating the absent ID "b". -/
theorem C3_update_semantics_witness :
    (UpdateSessionData sampleStore "a" [("w", 1)] 10).1 = .ok () ∧
    mapLookup "a" (UpdateSessionData sampleStore "a" [("w", 1)] 10).2.sessions
      = some { Data := [("w", 1)], LastUpdate := 10 } ∧
    UpdateSessionData sampleStore "b" [("w", 1)] 10 =
      (.error .SessionNotFound, sampleStore) := by
  have h := C3_update_semantics sampleStore "a" [("w", 1)] 10
  have h2 := C3_update_semantics sampleStore "b" [("w", 1)] 10
  exact ⟨(h.1 sampleSession rfl).1, (h.1 sampleSession rfl).2.1, h2.2 rfl⟩

/-- C5: for an ID absent from the store — never created, or already
evicted (C1's absence result produces exactly this premise for an
evicted ID) — both `GetSessionData` and `UpdateSessionData` return the
`SessionNotFound` error and nothing else, so the error surface does not
distinguish the two origins. -/
theorem C5_not_found_symmetry (m : SessionManager V) (q : String)
    (d : List (String × V)) (now : Nat)
    (h : mapLookup q m.sessions = none) :
    (GetSessionData m q).1 = .error .SessionNotFound ∧
    (UpdateSessionData m q d now).1 = .error .SessionNotFound := by
  constructor <;> simp [GetSessionData, UpdateSessionData, h]

/-- Witness for C5 at the never-created ID "b" of `sampleStore`. -/
theorem C5_not_found_symmetry_witness :
    (GetSessionData sampleStore "b").1 = .error .SessionNotFound ∧
    (UpdateSessionData sampleStore "b" [] 0).1 = .error .SessionNotFound :=
  C5_not_found_symmetry sampleStore "b" [] 0 rfl

/-- C6: read-after-write: if `UpdateSessionData` succeeds and nothing
intervenes, the very next `GetSessionData` on the same ID returns
exactly the written data. -/
theorem C6_read_after_write (m m2 : SessionManager V) (q : String)
    (d : List (String × V)) (now : Nat)
    (h : UpdateSessionData m q d now = (.ok (), m2)) :
    (GetSessionData m2 q).1 = .ok d := by
  cases hs : mapLookup q m.sessions with
  | none => simp [UpdateSessionData, hs] at h
  | some s =>
      simp only [UpdateSessionData, hs, Prod.mk.injEq, true_and] at h
      subst h
      simp [GetSessionData, mapLookup_mapInsert_self]

/-- Witness for C6: write then read on session "a" of `sampleStore`. -/
theorem C6_read_after_write_witness :
    (GetSessionData (UpdateSessionData sampleStore "a" [("w", 9)] 10).2
        "a").1 = .ok [("w", 9)] :=
  C6_read_after_write sampleStore _ "a" [("w", 9)] 10 rfl

/-- The observability record of one scan: none on an empty store, none
on an empty batch, otherwise the batch of removed IDs. -/
theorem scanOnce_snd (now : Nat) (m : SessionManager V) :
    (scanOnce now m).2 =
      if m.sessions.isEmpty then none
      else if ((m.sessions.filter fun p => expired now p.2.LastUpdate).map
          fun p => p.1).isEmpty then none
      else some ((m.sessions.filter fun p => expired now p.2.LastUpdate).map
          fun p => p.1) := by
  unfold scanOnce
  cases hs : m.sessions with
  | nil => simp
  | cons hd tl => simp

/-- C7: each scan cycle removes exactly the sessions with `now -
lastUpdate ≥ TTL` and leaves every other entry unchanged (the batch is
collected during enumeration and deleted only afterwards — see
`scanOnce`'s filter-then-fold structure); a scan of an empty store is a
no-op with no record; and a record, when emitted, is non-empty and lists
exactly the removed IDs; no record means no entry changed. -/
theorem C7_scan_cycle (now : Nat) (m : SessionManager V)
    (hnd : nodupKeys m.sessions) :
    (∀ q s, mapLookup q m.sessions = some s →
        mapLookup q (scanOnce now m).1.sessions =
          (if expired now s.LastUpdate then none else some s)) ∧
    (m.sessions = [] → scanOnce now m = (m, none)) ∧
    (∀ l, (scanOnce now m).2 = some l →
        l ≠ [] ∧ ∀ q, q ∈ l ↔
          ∃ s, mapLookup q m.sessions = some s ∧
            expired now s.LastUpdate = true) ∧
    ((scanOnce now m).2 = none →
        ∀ q, mapLookup q (scanOnce now m).1.sessions =
          mapLookup q m.sessions) := by
  refine ⟨?_, ?_, ?_, ?_⟩
  · intro q s hs
    exact scanOnce_lookup_some now m q s hnd hs
  · intro h
    simp [scanOnce, h]
  · intro l hl
    rw [scanOnce_snd] at hl
    by_cases hemp : m.sessions.isEmpty
    · simp [hemp] at hl
    · by_cases hb : ((m.sessions.filter fun p => expired now p.2.LastUpdate).map
          fun p => p.1).isEmpty
      · simp [hemp, hb] at hl
      · simp only [hemp, hb, if_false, Bool.false_eq_true] at hl
        injection hl with hl
        subst hl
        refine ⟨fun hnil => ?_, fun q => mem_scan_batch_iff now m q hnd⟩
        rw [hnil] at hb
        simp at hb
  · intro hl q
    rw [scanOnce_snd] at hl
    by_cases hemp : m.sessions.isEmpty
    · have : m.sessions = [] := List.isEmpty_iff.mp hemp
      simp [scanOnce, this]
    · by_cases hb : ((m.sessions.filter fun p => expired now p.2.LastUpdate).map
          fun p => p.1).isEmpty
      · rw [scanOnce_fst_sessions, mapLookup_foldl_mapDelete]
        rw [List.isEmpty_iff.mp hb]
        simp
      · simp [hemp, hb] at hl

/-- Witness for C7 at `sampleStore` (nodup keys hold by computation): a
scan at time 4 (before expiry of the session updated at 3) keeps the
entry; the empty-store scan is a no-op; a scan at `TTL + 3` emits the
record `["a"]`. -/
theorem C7_scan_cycle_witness :
    mapLookup "a" (scanOnce 4 sampleStore).1.sessions =
      some sampleSession ∧
    scanOnce 4 (NewSessionManager (V := Nat)) =
      (NewSessionManager (V := Nat), none) ∧
    (["a"] : List String) ≠ [] := by
  have h := C7_scan_cycle 4 sampleStore (by decide)
  have h2 := C7_scan_cycle 4 (NewSessionManager (V := Nat)) (by decide)
  refine ⟨?_, h2.2.1 rfl, ?_⟩
  · have := h.1 "a" sampleSession rfl
    simpa using this
  · have h3 := C7_scan_cycle (TTL + 3) sampleStore (by decide)
    exact ((h3.2.2.1 ["a"] (by decide)).1)

/-- Standard base64 output length: 4 characters per 3-byte group,
rounded up by padding. -/
theorem base64StdEncode_length (l : List Nat) :
    (base64StdEncode l).length = 4 * ((l.length + 2) / 3) := by
  induction l using base64StdEncode.induct with
  | case1 => simp [base64StdEncode]
  | case2 b1 => simp [base64StdEncode]
  | case3 b1 b2 => simp [base64StdEncode]
  | case4 b1 b2 b3 rest ih =>
      simp only [base64StdEncode, List.length_cons, ih]
      omega

/-- A byte string of length `≡ 2 (mod 3)` — such as the 26-byte session
ID material — gets `=` padding as its final character. -/
theorem base64StdEncode_padded (l : List Nat) (h : l.length % 3 = 2) :
    (base64StdEncode l).getLast? = some '=' := by
  induction l using base64StdEncode.induct with
  | case1 => simp at h
  | case2 b1 => simp at h
  | case3 b1 b2 => simp [base64StdEncode]
  | case4 b1 b2 b3 rest ih =>
      have h2 : rest.length % 3 = 2 := by
        simp only [List.length_cons] at h
        omega
      have hne : base64StdEncode rest ≠ [] := by
        have hlen := base64StdEncode_length rest
        intro hnil
        rw [hnil] at hlen
        simp at hlen
        omega
      calc (base64StdEncode (b1 :: b2 :: b3 :: rest)).getLast?
          = ([b64char (b1 / 4 % 64), b64char (b1 % 4 * 16 + b2 / 16 % 16),
              b64char (b2 % 16 * 4 + b3 / 64 % 4), b64char (b3 % 64)] ++
              base64StdEncode rest).getLast? := rfl
        _ = (base64StdEncode rest).getLast? :=
            List.getLast?_append_of_ne_nil _ hne
        _ = some '=' := ih h2

/-- C4: `CreateSession` fails exactly when the 26-byte entropy read
fails, propagating that error with the store untouched and no ID;
otherwise it inserts exactly one session with empty data and
`lastUpdate = now` under the returned ID, which is the standard padded
base64 encoding of the 26 random bytes (36 characters, `=`-padded). -/
theorem C4_create_semantics (m : SessionManager V)
    (randRead : Except GoError (List Nat)) (now : Nat) :
    (∀ e, randRead = .error e →
        CreateSession m randRead now = (.error e, m)) ∧
    (∀ buf, randRead = .ok buf →
        (CreateSession m randRead now).1 =
          .ok (⟨base64StdEncode buf⟩ : String) ∧
        (CreateSession m randRead now).2.sessions =
          mapInsert (⟨base64StdEncode buf⟩ : String)
            ({ Data := [], LastUpdate := now } : Session V) m.sessions ∧
        (CreateSession m randRead now).2.done = m.done ∧
        mapLookup (⟨base64StdEncode buf⟩ : String)
            (CreateSession m randRead now).2.sessions =
          some { Data := [], LastUpdate := now } ∧
        (buf.length = 26 →
          (⟨base64StdEncode buf⟩ : String).length = 36 ∧
          (base64StdEncode buf).getLast? = some '=')) := by
  constructor
  · intro e he
    simp [CreateSession, MakeSessionID, he]
  · intro buf hbuf
    refine ⟨by simp [CreateSession, MakeSessionID, hbuf],
      by simp [CreateSession, MakeSessionID, hbuf],
      by simp [CreateSession, MakeSessionID, hbuf], ?_, ?_⟩
    · simp [CreateSession, MakeSessionID, hbuf, mapLookup_mapInsert_self]
    · intro hlen
      constructor
      · show (base64StdEncode buf).length = 36
        rw [base64StdEncode_length, hlen]
      · exact base64StdEncode_padded buf (by rw [hlen])

/-- Witness for C4: a failed entropy read on `sampleStore`, and a
successful creation from 26 zero bytes. -/
theorem C4_create_semantics_witness :
    CreateSession sampleStore (.error .RandomSourceError) 5 =
      (.error .RandomSourceError, sampleStore) ∧
    mapLookup (⟨base64StdEncode (List.replicate 26 0)⟩ : String)
        (CreateSession sampleStore (.ok (List.replicate 26 0)) 5).2.sessions =
      some { Data := [], LastUpdate := 5 } ∧
    (⟨base64StdEncode (List.replicate 26 0)⟩ : String).length = 36 := by
  have h := C4_create_semantics sampleStore
    (.error GoError.RandomSourceError) 5
  have h2 := C4_create_semantics sampleStore
    (.ok (List.replicate 26 0)) 5
  exact ⟨h.1 .RandomSourceError rfl, (h2.2 _ rfl).2.2.2.1,
    ((h2.2 _ rfl).2.2.2.2 (by decide)).1⟩

/-- C10: frame conditions: `GetSessionData` never changes the store;
`UpdateSessionData` changes at most the targeted entry, and nothing at
all on its error path; `CreateSession` with a fresh ID adds exactly one
entry, leaves every pre-existing entry unchanged, and changes nothing on
its error path — the not-found / error checks happen before any
mutation. -/
theorem C10_frame (m : SessionManager V) (q : String) (d : List (String × V))
    (now : Nat) (randRead : Except GoError (List Nat)) :
    ((GetSessionData m q).2 = m) ∧
    (∀ q2, q2 ≠ q →
        mapLookup q2 (UpdateSessionData m q d now).2.sessions =
          mapLookup q2 m.sessions) ∧
    (mapLookup q m.sessions = none →
        (UpdateSessionData m q d now).2 = m) ∧
    (∀ e, randRead = .error e → (CreateSession m randRead now).2 = m) ∧
    (∀ buf, randRead = .ok buf →
        mapLookup (⟨base64StdEncode buf⟩ : String) m.sessions = none →
        (CreateSession m randRead now).2.sessions.length =
            m.sessions.length + 1 ∧
        ∀ q2, q2 ≠ (⟨base64StdEncode buf⟩ : String) →
          mapLookup q2 (CreateSession m randRead now).2.sessions =
            mapLookup q2 m.sessions) := by
  refine ⟨?_, ?_, ?_, ?_, ?_⟩
  · cases hs : mapLookup q m.sessions <;> simp [GetSessionData, hs]
  · intro q2 hq2
    cases hs : mapLookup q m.sessions with
    | none => simp [UpdateSessionData, hs]
    | some s =>
        simp [UpdateSessionData, hs, mapLookup_mapInsert_ne q q2 _ _ hq2]
  · intro h
    simp [UpdateSessionData, h]
  · intro e he
    simp [CreateSession, MakeSessionID, he]
  · intro buf hbuf hfresh
    constructor
    · simp [CreateSession, MakeSessionID, hbuf,
        length_mapInsert_of_absent _ _ _ hfresh]
    · intro q2 hq2
      simp [CreateSession, MakeSessionID, hbuf,
        mapLookup_mapInsert_ne _ q2 _ _ hq2]

/-- Witness for C10 on `sampleStore`: read leaves the store intact,
update of "a" leaves "b" alone, error paths leave the store intact, and
a fresh creation grows the map by exactly one entry. -/
theorem C10_frame_witness :
    (GetSessionData sampleStore "a").2 = sampleStore ∧
    mapLookup "b" (UpdateSessionData sampleStore "a" [] 9).2.sessions =
      mapLookup "b" sampleStore.sessions ∧
    (UpdateSessionData sampleStore "x" [] 9).2 = sampleStore ∧
    (CreateSession sampleStore (.error .RandomSourceError) 9).2 =
      sampleStore ∧
    (CreateSession sampleStore (.ok ([] : List Nat)) 9).2.sessions.length =
      sampleStore.sessions.length + 1 := by
  have h := C10_frame sampleStore "a" [] 9
    (.error GoError.RandomSourceError)
  have h2 := C10_frame sampleStore "x" [] 9 (.ok ([] : List Nat))
  exact ⟨h.1, h.2.1 "b" (by decide), h2.2.2.1 rfl,
    h.2.2.2.1 .RandomSourceError rfl, (h2.2.2.2.2 [] rfl rfl).1⟩

end SessionCleaner
